import Mathlib

/-
Verification development for a minimal HTTP CRUD task service
(FastAPI + MongoDB, `main.py`).

The document store is embedded shallowly: a stored document is an
association list of string keys and BSON-like values, a collection is a
list of documents, and each route handler becomes a pure function from
its request data and the current store to a response together with the
new store.  Server time (`datetime.utcnow()`) is passed explicitly as a
natural number, and the outcome of external store calls that can fail is
passed as an explicit `Except` argument.
-/

set_option autoImplicit false

/-- Decidable equality of `Except` results, used to evaluate the model
on concrete requests. -/
instance {ε α : Type} [DecidableEq ε] [DecidableEq α] : DecidableEq (Except ε α) := fun x y =>
  match x, y with
  | Except.ok a, Except.ok b =>
    if h : a = b then isTrue (by rw [h]) else isFalse (by simp [h])
  | Except.error a, Except.error b =>
    if h : a = b then isTrue (by rw [h]) else isFalse (by simp [h])
  | Except.ok _, Except.error _ => isFalse (by simp)
  | Except.error _, Except.ok _ => isFalse (by simp)

namespace Todo

/-- BSON-like values occurring in task documents: strings, booleans,
datetimes (abstracted to a natural-number timestamp), object identifiers
(abstracted to a natural number) and null. -/
inductive BVal where
  | vStr (s : String)
  | vBool (b : Bool)
  | vDT (t : Nat)
  | vOid (n : Nat)
  | vNull
deriving DecidableEq

/-- A document is an association list of keys and values, mirroring a
Python dict / BSON document (keys unique in well-formed documents). -/
abbrev Doc := List (String × BVal)

/-- Lookup of `d[k]`: the value at the first occurrence of key `k`. -/
def getKey : Doc → String → Option BVal
  | [], _ => none
  | (k, v) :: rest, key => if k = key then some v else getKey rest key

/-- Assignment `d[k] = v`: replaces the value at the first occurrence of
`k`, keeping its position, or appends the pair at the end (Python dict
assignment semantics). -/
def setKey : Doc → String → BVal → Doc
  | [], key, v => [(key, v)]
  | (k, w) :: rest, key, v =>
    if k = key then (k, v) :: rest else (k, w) :: setKey rest key v

/-- `d.pop(k)`: the value at `k` together with the document with that
entry removed, or `none` (a `KeyError` in Python) when `k` is absent. -/
def popKey : Doc → String → Option (BVal × Doc)
  | [], _ => none
  | (k, v) :: rest, key =>
    if k = key then some (v, rest)
    else
      match popKey rest key with
      | some (w, rest') => some (w, (k, v) :: rest')
      | none => none

/-- Key membership test (`k in d`). -/
def hasKey (d : Doc) (k : String) : Bool := (getKey d k).isSome

/-- The keys of a document, in order. -/
def keys (d : Doc) : List String := d.map Prod.fst

/- ### Regular-expression matching, modelling the store's `$regex` operator

Modelled from the spec: the store is an external black box, and `q` is
passed raw as a `$regex` pattern with the case-insensitive option
("pattern matching against raw user input with no escaping").  The model
covers literal characters, the `.` wildcard and backslash escapes, which
is the fragment exercised by the theorems below. -/

/-- Case-insensitive character comparison, the effect of the `i` regex
option. -/
def chEq (a b : Char) : Bool := a.toLower = b.toLower

/-- A parsed regex token: a literal character or the `.` wildcard. -/
inductive RTok where
  | lit (c : Char)
  | dot
deriving DecidableEq

/-- Modelled from the spec: parsing of the raw pattern handed to the
store's regex engine.  `.` is a wildcard and a backslash escapes the
next character; every other character is a literal. -/
def parsePat : List Char → List RTok
  | [] => []
  | c :: rest =>
    if c = '\\' then
      match rest with
      | [] => []
      | c2 :: rest2 => RTok.lit c2 :: parsePat rest2
    else if c = '.' then RTok.dot :: parsePat rest
    else RTok.lit c :: parsePat rest

/-- Does the token list match a prefix of the text (case-insensitively)? -/
def matchHere : List RTok → List Char → Bool
  | [], _ => true
  | RTok.lit c :: ps, x :: xs => chEq c x && matchHere ps xs
  | RTok.dot :: ps, _ :: xs => matchHere ps xs
  | _ :: _, [] => false

/-- Unanchored regex search: does the token list match at some position
of the text?  This is MongoDB `$regex` semantics for a pattern with no
anchors. -/
def matchSearch (ps : List RTok) : List Char → Bool
  | [] => matchHere ps []
  | x :: xs => matchHere ps (x :: xs) || matchSearch ps xs

/-- Case-insensitive unanchored regex search on strings:
`\x7b"$regex": pat, "$options": "i"\x7d` applied to text `s`. -/
def regexSearchCI (pat s : String) : Bool := matchSearch (parsePat pat.data) s.data

/-- Case-insensitive prefix test on character lists. -/
def prefixCI : List Char → List Char → Bool
  | [], _ => true
  | _ :: _, [] => false
  | a :: as, b :: bs => chEq a b && prefixCI as bs

/-- Case-insensitive substring containment on character lists:
does `s` contain `q` at some position? -/
def containsSub (q : List Char) : List Char → Bool
  | [] => prefixCI q []
  | x :: xs => prefixCI q (x :: xs) || containsSub q xs

/-- `ciContains s q`: does `s` contain `q` as a case-insensitive
substring?  This is the predicate the specification describes for the
free-text query. -/
def ciContains (s q : String) : Bool := containsSub q.data s.data

/-- The regex metacharacters of the store's pattern language. -/
def regexMeta : List Char :=
  ['\\', '.', '^', '$', '|', '?', '*', '+', '(', ')', '[', ']', '\x7b', '\x7d']

/-- Is the character a regex metacharacter? -/
def isMetaChar (c : Char) : Bool := c ∈ regexMeta

/-- A pattern that contains no regex metacharacter, i.e. one the spec's
"substring" reading agrees with. -/
def litPattern (q : String) : Bool := q.data.all (fun c => !isMetaChar c)

/- ### The list filter (`list_tasks`, main.py lines 85-108) -/

/-- The filter document `list_tasks` can build: an optional category
equality clause and an optional `$or` of two `$regex` clauses sharing
the pattern `q`. -/
structure ListFilter where
  cat : Option String
  qPat : Option String
deriving DecidableEq

/-- Python truthiness on `Optional[str]`: `if s:` is false for both
`None` and the empty string. -/
def truthy : Option String → Option String
  | some s => if s = "" then none else some s
  | none => none

/-- `filter_dict` as built by `list_tasks`: a clause is added only when
the corresponding query parameter is truthy. -/
def buildFilter (category q : Option String) : ListFilter :=
  ⟨truthy category, truthy q⟩

/-- Modelled from the spec: the store's evaluation of a single
case-insensitive `$regex` clause on field `k` — the field must hold a
string that the pattern matches somewhere. -/
def fieldRegexCI (d : Doc) (k : String) (pat : String) : Bool :=
  match getKey d k with
  | some (BVal.vStr s) => regexSearchCI pat s
  | _ => false

/-- The `$or` clause of the filter: pattern `pat` matches the title or
the description. -/
def qMatches (pat : String) (d : Doc) : Bool :=
  fieldRegexCI d "title" pat || fieldRegexCI d "description" pat

/-- Modelled from the spec: the store's evaluation of the whole filter
document (clauses combined with logical AND; an equality clause requires
the stored field to equal the given string). -/
def matchesFilter (f : ListFilter) (d : Doc) : Bool :=
  (match f.cat with
   | some c => decide (getKey d "category" = some (BVal.vStr c))
   | none => true) &&
  (match f.qPat with
   | some pat => qMatches pat d
   | none => true)

/-- The spec's reading of the free-text clause on one field: the stored
field holds a string containing `q` as a case-insensitive substring. -/
def fieldSubstr (d : Doc) (k : String) (q : String) : Bool :=
  match getKey d k with
  | some (BVal.vStr s) => ciContains s q
  | _ => false

/- ### Output normalization (main.py lines 97-105 and 124-130) -/

/-- Modelled from the spec: the textual rendering of a store identifier
(`str(ObjectId(...))`), abstracted to hexadecimal digits of the numeric
model of the identifier. -/
def objectIdStr (n : Nat) : String := String.mk (Nat.toDigits 16 n)

/-- Modelled from the spec: `datetime.isoformat()`, abstracted to an
injective rendering of the timestamp as ISO-8601 text. -/
def isoformat (t : Nat) : String := "iso8601-" ++ toString t

/-- Python `str()` of a stored value, as used on the popped `_id`. -/
def valueStr : BVal → String
  | BVal.vOid n => objectIdStr n
  | BVal.vStr s => s
  | BVal.vBool b => if b then "True" else "False"
  | BVal.vDT t => "datetime-" ++ toString t
  | BVal.vNull => "None"

/-- One `isinstance(d[k], datetime)` conversion step: when key `k` holds
a datetime, replace it by its ISO-8601 text, otherwise leave the
document unchanged. -/
def renderTimeField (d : Doc) (k : String) : Doc :=
  match getKey d k with
  | some (BVal.vDT t) => setKey d k (BVal.vStr (isoformat t))
  | _ => d

/-- Python `str(KeyError("_id"))`. -/
def keyErrorMsg : String := "\x27_id\x27"

/-- The per-document normalization done by `list_tasks` and
`update_task`: pop `_id` (a missing `_id` is a `KeyError`, hence
`none`), store its string form under `id`, then render the three
timestamp fields. -/
def renderDoc (d : Doc) : Option Doc :=
  match popKey d "_id" with
  | none => none
  | some (v, d') =>
    let d1 := setKey d' "id" (BVal.vStr (valueStr v))
    some (renderTimeField (renderTimeField (renderTimeField d1 "created_at")
      "updated_at") "due_date")

/-- Normalization of a whole result list; `none` as soon as one document
lacks `_id`. -/
def renderAll : List Doc → Option (List Doc)
  | [] => some []
  | d :: ds =>
    match renderDoc d, renderAll ds with
    | some r, some rs => some (r :: rs)
    | _, _ => none

/-- An HTTP error as raised via `HTTPException`. -/
structure HErr where
  status : Nat
  detail : String
deriving DecidableEq

/-- Wrapping of a normalized result list, with the `KeyError` path
surfacing as a 500. -/
def listResult (ds : List Doc) : Except HErr (List Doc) :=
  match renderAll ds with
  | some out => Except.ok out
  | none => Except.error ⟨500, keyErrorMsg⟩

/-- `GET /api/tasks` (main.py lines 85-108): build the filter from the
query parameters, fetch the matching documents and normalize them.
Modelled from the spec: `get_documents` returns the stored documents
matching the filter, in store order. -/
def list_tasks (category q : Option String) (st : List Doc) : Except HErr (List Doc) :=
  listResult (st.filter (matchesFilter (buildFilter category q)))

/- ### ObjectId parsing (`bson.ObjectId(task_id)`) -/

/-- Is the character a hexadecimal digit? -/
def hexDigit (c : Char) : Bool :=
  (('0' ≤ c) && (c ≤ '9')) || (('a' ≤ c) && (c ≤ 'f')) || (('A' ≤ c) && (c ≤ 'F'))

/-- Numeric value of a hexadecimal digit. -/
def hexVal (c : Char) : Nat :=
  if ('0' ≤ c) && (c ≤ '9') then c.toNat - '0'.toNat
  else if ('a' ≤ c) && (c ≤ 'f') then c.toNat - 'a'.toNat + 10
  else c.toNat - 'A'.toNat + 10

/-- Numeric value of a hexadecimal digit string. -/
def hexNat (l : List Char) : Nat := l.foldl (fun acc c => 16 * acc + hexVal c) 0

/-- Modelled from the spec: `bson.ObjectId` applied to a string accepts
exactly a 24-character hexadecimal string and otherwise raises
`InvalidId`. -/
def parseObjectId (s : String) : Option Nat :=
  if s.length = 24 ∧ s.data.all hexDigit = true then some (hexNat s.data) else none

/-- Modelled from the spec: `str(InvalidId)` for a malformed identifier. -/
def invalidIdMsg (s : String) : String :=
  "\x27" ++ s ++
    "\x27 is not a valid ObjectId, it must be a 12-byte input or a 24-character hex string"

/- ### Request bodies (main.py lines 60-73) -/

/-- `TaskCreate`: the create request body.  It has no `completed`
field, so a caller cannot supply one. -/
structure TaskCreate where
  title : String
  description : Option String
  category : Option String
  due_date : Option Nat
  priority : Option String
deriving DecidableEq

/-- `TaskUpdate`: the partial-update request body; every field is
optional, and an omitted field and a field supplied as `null` both
surface as `none` (pydantic gives both the default `None`). -/
structure TaskUpdate where
  title : Option String
  description : Option String
  category : Option String
  due_date : Option Nat
  priority : Option String
  completed : Option Bool
deriving DecidableEq

/-- The entries an optional request field contributes to a dumped
document: one entry when present, nothing when `None`. -/
def optEntry {α : Type} (k : String) (f : α → BVal) : Option α → Doc
  | some a => [(k, f a)]
  | none => []

/-- `\x7bk: v for k, v in payload.model_dump().items() if v is not None\x7d`:
the non-null fields of the update body, in field-declaration order. -/
def dumpUpdate (p : TaskUpdate) : Doc :=
  optEntry "title" BVal.vStr p.title ++
  optEntry "description" BVal.vStr p.description ++
  optEntry "category" BVal.vStr p.category ++
  optEntry "due_date" BVal.vDT p.due_date ++
  optEntry "priority" BVal.vStr p.priority ++
  optEntry "completed" BVal.vBool p.completed

/-- The `$set` document of an update: the non-null body fields followed
by `updated_at` set to the current server time. -/
def updateData (p : TaskUpdate) (now : Nat) : Doc :=
  setKey (dumpUpdate p) "updated_at" (BVal.vDT now)

/-- The mutable field names of the update body. -/
def updFieldNames : List String :=
  ["title", "description", "category", "due_date", "priority", "completed"]

/- ### Store operations (pymongo collection calls) -/

/-- Modelled from the spec: MongoDB `$set` — assign each entry of the
`$set` document in the stored document, in order. -/
def applySet (d : Doc) (data : Doc) : Doc :=
  data.foldl (fun acc kv => setKey acc kv.1 kv.2) d

/-- Does the document's `_id` equal the given identifier?  This is the
`\x7b"_id": ObjectId(task_id)\x7d` filter. -/
def matchById (oid : Nat) (d : Doc) : Bool :=
  decide (getKey d "_id" = some (BVal.vOid oid))

/-- Modelled from the spec: `find_one_and_update` with
`return_document=True` — update the first matching document in place and
return the post-update document with the new collection, or `none` when
nothing matches. -/
def updateFirst (p : Doc → Bool) (f : Doc → Doc) : List Doc → Option (Doc × List Doc)
  | [] => none
  | d :: ds =>
    if p d then some (f d, f d :: ds)
    else
      match updateFirst p f ds with
      | some (r, ds') => some (r, d :: ds')
      | none => none

/-- Modelled from the spec: `delete_one` — remove the first matching
document, or `none` (a deleted count of zero) when nothing matches. -/
def deleteFirst (p : Doc → Bool) : List Doc → Option (List Doc)
  | [] => none
  | d :: ds =>
    if p d then some ds
    else (deleteFirst p ds).map (fun ds' => d :: ds')

/- ### Create (main.py lines 76-83) -/

/-- Lift an optional request value to a stored value (`None` becomes
BSON null). -/
def optVal {α : Type} (f : α → BVal) : Option α → BVal
  | some a => f a
  | none => BVal.vNull

/-- Modelled from the spec: the `Task` document built from the create
body (`Task(**payload.model_dump(), completed=False)`) with
server-assigned timestamps. -/
def taskDoc (p : TaskCreate) (completed : Bool) (now : Nat) : Doc :=
  [("title", BVal.vStr p.title),
   ("description", optVal BVal.vStr p.description),
   ("category", optVal BVal.vStr p.category),
   ("due_date", optVal BVal.vDT p.due_date),
   ("priority", optVal BVal.vStr p.priority),
   ("completed", BVal.vBool completed),
   ("created_at", BVal.vDT now),
   ("updated_at", BVal.vDT now)]

/-- The document as stored: the store-assigned `_id` together with the
task fields. -/
def insertedDoc (p : TaskCreate) (now oid : Nat) : Doc :=
  ("_id", BVal.vOid oid) :: taskDoc p false now

/-- `POST /api/tasks` (main.py lines 76-83).  Modelled from the spec:
`create_document` inserts one document and returns the store-assigned
identifier; its outcome is the explicit `ins` argument, and any store
error surfaces as a 500 with the exception text. -/
def create_task (p : TaskCreate) (now : Nat) (ins : Except String Nat)
    (st : List Doc) : Except HErr String × List Doc :=
  match ins with
  | Except.ok oid => (Except.ok (objectIdStr oid), st ++ [insertedDoc p now oid])
  | Except.error e => (Except.error ⟨500, e⟩, st)

/- ### Update (main.py lines 110-135) -/

/-- Normalization of the post-update document; a document without `_id`
would surface the `KeyError` as a 500. -/
def updResponse (r : Doc) : Except HErr Doc :=
  match renderDoc r with
  | some out => Except.ok out
  | none => Except.error ⟨500, keyErrorMsg⟩

/-- `PATCH /api/tasks/\x7btask_id\x7d` (main.py lines 110-135): check
the handle, parse the identifier (failure is a 500 with the exception
text), strip null fields, stamp `updated_at`, `find_one_and_update`, and
404 when nothing matched. -/
def update_task (dbOk : Bool) (task_id : String) (p : TaskUpdate) (now : Nat)
    (st : List Doc) : Except HErr Doc × List Doc :=
  if dbOk then
    match parseObjectId task_id with
    | none => (Except.error ⟨500, invalidIdMsg task_id⟩, st)
    | some oid =>
      match updateFirst (matchById oid) (fun d => applySet d (updateData p now)) st with
      | none => (Except.error ⟨404, "Task not found"⟩, st)
      | some (r, st') => (updResponse r, st')
  else (Except.error ⟨500, "Database not available"⟩, st)

/- ### Delete (main.py lines 137-149) -/

/-- `DELETE /api/tasks/\x7btask_id\x7d` (main.py lines 137-149): check
the handle, parse the identifier, `delete_one`, and 404 when the deleted
count is zero. -/
def delete_task (dbOk : Bool) (task_id : String) (st : List Doc) :
    Except HErr String × List Doc :=
  if dbOk then
    match parseObjectId task_id with
    | none => (Except.error ⟨500, invalidIdMsg task_id⟩, st)
    | some oid =>
      match deleteFirst (matchById oid) st with
      | none => (Except.error ⟨404, "Task not found"⟩, st)
      | some st' => (Except.ok "ok", st')
  else (Except.error ⟨500, "Database not available"⟩, st)

/- ### Diagnostics (main.py lines 26-57) -/

/-- The database handle as seen by the diagnostics endpoint: its name
and the outcome of `list_collection_names()`. -/
structure DBHandle where
  name : String
  collectionsResult : Except String (List String)

/-- The diagnostics response object. -/
structure TestResp where
  backend : String
  database : String
  database_url : String
  database_name : String
  connection_status : String
  collections : List String
deriving DecidableEq

/-- Python `str(e)[:50]`: the first fifty characters of the exception
text. -/
def trunc50 (s : String) : String := String.mk (s.data.take 50)

/-- `GET /test` (main.py lines 26-57): a total function of the handle
state and the two environment flags.  The outer `except` of the source
has no raising operation left to guard in this model and is therefore
not represented; `database_url` and `database_name` are overwritten
unconditionally at the end (lines 54-55). -/
def test_database (db : Option DBHandle) (urlSet nameSet : Bool) : TestResp :=
  let dbField :=
    match db with
    | none => "⚠️  Available but not initialized"
    | some h =>
      match h.collectionsResult with
      | Except.ok _ => "✅ Connected & Working"
      | Except.error e => "⚠️  Connected but Error: " ++ trunc50 e
  let cols :=
    match db with
    | none => []
    | some h =>
      match h.collectionsResult with
      | Except.ok cs => cs.take 10
      | Except.error _ => []
  { backend := "✅ Running",
    database := dbField,
    database_url := if urlSet then "✅ Set" else "❌ Not Set",
    database_name := if nameSet then "✅ Set" else "❌ Not Set",
    connection_status := if db.isSome then "Connected" else "Not Connected",
    collections := cols }

/-- The route as served: FastAPI returns the dict with status 200 on
every path through `test_database`. -/
def test_endpoint (db : Option DBHandle) (urlSet nameSet : Bool) : Nat × TestResp :=
  (200, test_database db urlSet nameSet)

/- ### Basic lemmas on document operations -/

@[simp]
theorem getKey_setKey_self (d : Doc) (k : String) (v : BVal) :
    getKey (setKey d k v) k = some v := by
  induction d with
  | nil => simp [setKey, getKey]
  | cons hd tl ih =>
    obtain ⟨k1, v1⟩ := hd
    by_cases h : k1 = k
    · simp [setKey, getKey, h]
    · simp [setKey, getKey, h, ih]

theorem getKey_setKey_ne (d : Doc) (k k' : String) (v : BVal) (h : k' ≠ k) :
    getKey (setKey d k v) k' = getKey d k' := by
  induction d with
  | nil => simp [setKey, getKey, Ne.symm h]
  | cons hd tl ih =>
    obtain ⟨k1, v1⟩ := hd
    by_cases h1 : k1 = k
    · subst h1
      simp [setKey, getKey, Ne.symm h]
    · simp only [setKey, if_neg h1, getKey]
      by_cases h2 : k1 = k'
      · simp [h2]
      · simp [h2, ih]

theorem keys_setKey (d : Doc) (k : String) (v : BVal) :
    keys (setKey d k v) = keys d ∨ keys (setKey d k v) = keys d ++ [k] := by
  induction d with
  | nil => simp [setKey, keys]
  | cons hd tl ih =>
    obtain ⟨k1, v1⟩ := hd
    by_cases h : k1 = k
    · simp [setKey, keys, h]
    · rcases ih with ih | ih <;> simp [setKey, keys, h] <;> simp [keys] at ih <;>
        simp [ih]

theorem getKey_applySet_notMem (d data : Doc) (k : String)
    (h : k ∉ data.map Prod.fst) :
    getKey (applySet d data) k = getKey d k := by
  induction data generalizing d with
  | nil => simp [applySet]
  | cons hd tl ih =>
    obtain ⟨k1, v1⟩ := hd
    simp only [List.map_cons, List.mem_cons, not_or] at h
    have step : applySet d ((k1, v1) :: tl) = applySet (setKey d k1 v1) tl := rfl
    rw [step, ih (setKey d k1 v1) h.2, getKey_setKey_ne _ _ _ _ h.1]

theorem applySet_append (d a b : Doc) :
    applySet d (a ++ b) = applySet (applySet d a) b := by
  simp [applySet, List.foldl_append]

theorem getKey_applySet_split (d x y : Doc) (k : String) (v : BVal)
    (hy : k ∉ y.map Prod.fst) :
    getKey (applySet d (x ++ (k, v) :: y)) k = some v := by
  have step1 : applySet d (x ++ [(k, v)]) = setKey (applySet d x) k v := by
    rw [applySet_append]
    simp [applySet]
  have step : applySet d (x ++ (k, v) :: y) = applySet (setKey (applySet d x) k v) y := by
    rw [show x ++ (k, v) :: y = (x ++ [(k, v)]) ++ y by simp, applySet_append, step1]
  rw [step, getKey_applySet_notMem _ _ _ hy, getKey_setKey_self]

/-- Removal of the first occurrence of a key. -/
def eraseKey : Doc → String → Doc
  | [], _ => []
  | (k, v) :: rest, key =>
    if k = key then rest else (k, v) :: eraseKey rest key

theorem popKey_eq (d : Doc) (k : String) :
    popKey d k =
      match getKey d k with
      | some v => some (v, eraseKey d k)
      | none => none := by
  induction d with
  | nil => simp [popKey, getKey]
  | cons hd tl ih =>
    obtain ⟨k1, v1⟩ := hd
    by_cases h : k1 = k
    · simp [popKey, getKey, eraseKey, h]
    · simp only [popKey, getKey, eraseKey, if_neg h, ih]
      cases getKey tl k <;> simp

theorem getKey_eraseKey_ne (d : Doc) (k k' : String) (h : k' ≠ k) :
    getKey (eraseKey d k) k' = getKey d k' := by
  induction d with
  | nil => simp [eraseKey]
  | cons hd tl ih =>
    obtain ⟨k1, v1⟩ := hd
    by_cases h1 : k1 = k
    · subst h1
      simp [eraseKey, getKey, Ne.symm h]
    · simp only [eraseKey, if_neg h1, getKey]
      by_cases h2 : k1 = k'
      · simp [h2]
      · simp [h2, ih]

theorem getKey_eq_none_of_notMem (d : Doc) (k : String) (h : k ∉ keys d) :
    getKey d k = none := by
  induction d with
  | nil => simp [getKey]
  | cons hd tl ih =>
    obtain ⟨k1, v1⟩ := hd
    simp only [keys, List.map_cons, List.mem_cons, not_or] at h
    simp only [getKey, if_neg (Ne.symm h.1)]
    exact ih h.2

theorem getKey_eraseKey_self (d : Doc) (k : String) (hnd : (keys d).Nodup) :
    getKey (eraseKey d k) k = none := by
  induction d with
  | nil => simp [eraseKey, getKey]
  | cons hd tl ih =>
    obtain ⟨k1, v1⟩ := hd
    simp only [keys, List.map_cons, List.nodup_cons] at hnd
    by_cases h : k1 = k
    · subst h
      simp only [eraseKey, if_pos rfl]
      exact getKey_eq_none_of_notMem tl k1 hnd.1
    · simp only [eraseKey, if_neg h, getKey, if_neg h]
      exact ih hnd.2

/- ### Lemmas on the update `$set` document -/

@[simp]
theorem mem_keys_optEntry {α : Type} (k' k : String) (f : α → BVal) (o : Option α) :
    k' ∈ (optEntry k f o).map Prod.fst ↔ k' = k ∧ o.isSome := by
  cases o <;> simp [optEntry]

@[simp]
theorem pair_mem_optEntry {α : Type} (k' k : String) (x : BVal) (f : α → BVal)
    (o : Option α) :
    (k', x) ∈ optEntry k f o ↔ ∃ a, o = some a ∧ k' = k ∧ x = f a := by
  cases o <;> simp [optEntry]

theorem updateData_eq (p : TaskUpdate) (now : Nat) :
    updateData p now = dumpUpdate p ++ [("updated_at", BVal.vDT now)] := by
  have h : "updated_at" ∉ (dumpUpdate p).map Prod.fst := by
    simp [dumpUpdate]
  unfold updateData
  generalize dumpUpdate p = l at h ⊢
  induction l with
  | nil => simp [setKey]
  | cons hd tl ih =>
    obtain ⟨k1, v1⟩ := hd
    simp only [List.map_cons, List.mem_cons, not_or] at h
    simp [setKey, Ne.symm h.1, ih h.2]

theorem keys_updateData_sub (p : TaskUpdate) (now : Nat) (k : String)
    (h : k ∈ (updateData p now).map Prod.fst) :
    k ∈ updFieldNames ∨ k = "updated_at" := by
  rw [updateData_eq] at h
  simp only [dumpUpdate, List.map_append, List.mem_append, mem_keys_optEntry] at h
  simp only [updFieldNames, List.mem_cons, List.not_mem_nil]
  rcases h with ((((((h | h) | h) | h) | h) | h) | h) <;> simp_all

theorem getKey_upd_updated_at (p : TaskUpdate) (now : Nat) (d : Doc) :
    getKey (applySet d (updateData p now)) "updated_at" = some (BVal.vDT now) := by
  rw [updateData_eq]
  exact getKey_applySet_split d (dumpUpdate p) [] "updated_at" (BVal.vDT now) (by simp)

theorem getKey_upd_other (p : TaskUpdate) (now : Nat) (d : Doc) (k : String)
    (h1 : k ∉ updFieldNames) (h2 : k ≠ "updated_at") :
    getKey (applySet d (updateData p now)) k = getKey d k := by
  refine getKey_applySet_notMem d _ k (fun hmem => ?_)
  rcases keys_updateData_sub p now k hmem with h | h
  · exact h1 h
  · exact h2 h

theorem getKey_upd_title (p : TaskUpdate) (now : Nat) (d : Doc) :
    getKey (applySet d (updateData p now)) "title" =
      match p.title with
      | some v => some (BVal.vStr v)
      | none => getKey d "title" := by
  rw [updateData_eq]
  cases h : p.title with
  | some v =>
    have : dumpUpdate p ++ [("updated_at", BVal.vDT now)] =
        [] ++ ("title", BVal.vStr v) ::
          (optEntry "description" BVal.vStr p.description ++
           optEntry "category" BVal.vStr p.category ++
           optEntry "due_date" BVal.vDT p.due_date ++
           optEntry "priority" BVal.vStr p.priority ++
           optEntry "completed" BVal.vBool p.completed ++
           [("updated_at", BVal.vDT now)]) := by
      simp [dumpUpdate, h, optEntry]
    rw [this]
    exact getKey_applySet_split _ _ _ _ _ (by simp)
  | none =>
    refine getKey_applySet_notMem d _ _ (by simp [dumpUpdate, h])

theorem getKey_upd_description (p : TaskUpdate) (now : Nat) (d : Doc) :
    getKey (applySet d (updateData p now)) "description" =
      match p.description with
      | some v => some (BVal.vStr v)
      | none => getKey d "description" := by
  rw [updateData_eq]
  cases h : p.description with
  | some v =>
    have : dumpUpdate p ++ [("updated_at", BVal.vDT now)] =
        optEntry "title" BVal.vStr p.title ++ ("description", BVal.vStr v) ::
          (optEntry "category" BVal.vStr p.category ++
           optEntry "due_date" BVal.vDT p.due_date ++
           optEntry "priority" BVal.vStr p.priority ++
           optEntry "completed" BVal.vBool p.completed ++
           [("updated_at", BVal.vDT now)]) := by
      simp [dumpUpdate, h, optEntry]
    rw [this]
    exact getKey_applySet_split _ _ _ _ _ (by simp)
  | none =>
    refine getKey_applySet_notMem d _ _ (by simp [dumpUpdate, h])

theorem getKey_upd_category (p : TaskUpdate) (now : Nat) (d : Doc) :
    getKey (applySet d (updateData p now)) "category" =
      match p.category with
      | some v => some (BVal.vStr v)
      | none => getKey d "category" := by
  rw [updateData_eq]
  cases h : p.category with
  | some v =>
    have : dumpUpdate p ++ [("updated_at", BVal.vDT now)] =
        (optEntry "title" BVal.vStr p.title ++
         optEntry "description" BVal.vStr p.description) ++ ("category", BVal.vStr v) ::
          (optEntry "due_date" BVal.vDT p.due_date ++
           optEntry "priority" BVal.vStr p.priority ++
           optEntry "completed" BVal.vBool p.completed ++
           [("updated_at", BVal.vDT now)]) := by
      simp [dumpUpdate, h, optEntry]
    rw [this]
    exact getKey_applySet_split _ _ _ _ _ (by simp)
  | none =>
    refine getKey_applySet_notMem d _ _ (by simp [dumpUpdate, h])

theorem getKey_upd_due_date (p : TaskUpdate) (now : Nat) (d : Doc) :
    getKey (applySet d (updateData p now)) "due_date" =
      match p.due_date with
      | some v => some (BVal.vDT v)
      | none => getKey d "due_date" := by
  rw [updateData_eq]
  cases h : p.due_date with
  | some v =>
    have : dumpUpdate p ++ [("updated_at", BVal.vDT now)] =
        (optEntry "title" BVal.vStr p.title ++
         optEntry "description" BVal.vStr p.description ++
         optEntry "category" BVal.vStr p.category) ++ ("due_date", BVal.vDT v) ::
          (optEntry "priority" BVal.vStr p.priority ++
           optEntry "completed" BVal.vBool p.completed ++
           [("updated_at", BVal.vDT now)]) := by
      simp [dumpUpdate, h, optEntry]
    rw [this]
    exact getKey_applySet_split _ _ _ _ _ (by simp)
  | none =>
    refine getKey_applySet_notMem d _ _ (by simp [dumpUpdate, h])

theorem getKey_upd_priority (p : TaskUpdate) (now : Nat) (d : Doc) :
    getKey (applySet d (updateData p now)) "priority" =
      match p.priority with
      | some v => some (BVal.vStr v)
      | none => getKey d "priority" := by
  rw [updateData_eq]
  cases h : p.priority with
  | some v =>
    have : dumpUpdate p ++ [("updated_at", BVal.vDT now)] =
        (optEntry "title" BVal.vStr p.title ++
         optEntry "description" BVal.vStr p.description ++
         optEntry "category" BVal.vStr p.category ++
         optEntry "due_date" BVal.vDT p.due_date) ++ ("priority", BVal.vStr v) ::
          (optEntry "completed" BVal.vBool p.completed ++
           [("updated_at", BVal.vDT now)]) := by
      simp [dumpUpdate, h, optEntry]
    rw [this]
    exact getKey_applySet_split _ _ _ _ _ (by simp)
  | none =>
    refine getKey_applySet_notMem d _ _ (by simp [dumpUpdate, h])

theorem getKey_upd_completed (p : TaskUpdate) (now : Nat) (d : Doc) :
    getKey (applySet d (updateData p now)) "completed" =
      match p.completed with
      | some v => some (BVal.vBool v)
      | none => getKey d "completed" := by
  rw [updateData_eq]
  cases h : p.completed with
  | some v =>
    have : dumpUpdate p ++ [("updated_at", BVal.vDT now)] =
        (optEntry "title" BVal.vStr p.title ++
         optEntry "description" BVal.vStr p.description ++
         optEntry "category" BVal.vStr p.category ++
         optEntry "due_date" BVal.vDT p.due_date ++
         optEntry "priority" BVal.vStr p.priority) ++ ("completed", BVal.vBool v) ::
          [("updated_at", BVal.vDT now)] := by
      simp [dumpUpdate, h, optEntry]
    rw [this]
    exact getKey_applySet_split _ _ _ _ _ (by simp)
  | none =>
    refine getKey_applySet_notMem d _ _ (by simp [dumpUpdate, h])

/- ### Lemmas on the store operations -/

theorem updateFirst_cons_pos {p : Doc → Bool} {f : Doc → Doc} {d : Doc}
    {ds : List Doc} (hp : p d = true) :
    updateFirst p f (d :: ds) = some (f d, f d :: ds) := by
  simp [updateFirst, hp]

theorem updateFirst_cons_neg {p : Doc → Bool} {f : Doc → Doc} {d : Doc}
    {ds : List Doc} (hp : p d = false) :
    updateFirst p f (d :: ds) =
      match updateFirst p f ds with
      | some (r, ds') => some (r, d :: ds')
      | none => none := by
  simp [updateFirst, hp]

theorem updateFirst_eq_none {p : Doc → Bool} {f : Doc → Doc} {l : List Doc}
    (h : ∀ d ∈ l, p d = false) : updateFirst p f l = none := by
  induction l with
  | nil => rfl
  | cons hd tl ih =>
    rw [updateFirst_cons_neg (h hd (List.mem_cons_self hd tl)),
      ih (fun d hd2 => h d (List.mem_cons_of_mem _ hd2))]

theorem updateFirst_split (p : Doc → Bool) (f : Doc → Doc) (pre post : List Doc)
    (d : Doc) (hpre : ∀ x ∈ pre, p x = false) (hd : p d = true) :
    updateFirst p f (pre ++ d :: post) = some (f d, pre ++ f d :: post) := by
  induction pre with
  | nil => simpa using updateFirst_cons_pos hd
  | cons x xs ih =>
    rw [List.cons_append, updateFirst_cons_neg (hpre x (List.mem_cons_self x xs)),
      ih (fun y hy => hpre y (List.mem_cons_of_mem _ hy))]
    simp

theorem updateFirst_map {p : Doc → Bool} {f : Doc → Doc} {β : Type} (g : Doc → β)
    (hg : ∀ d, g (f d) = g d) {l l' : List Doc} {r : Doc}
    (h : updateFirst p f l = some (r, l')) : l'.map g = l.map g := by
  induction l generalizing l' with
  | nil => simp [updateFirst] at h
  | cons hd tl ih =>
    cases hp : p hd with
    | true =>
      rw [updateFirst_cons_pos hp] at h
      simp only [Option.some.injEq, Prod.mk.injEq] at h
      rw [← h.2]
      simp [hg]
    | false =>
      rw [updateFirst_cons_neg hp] at h
      cases hrec : updateFirst p f tl with
      | none => rw [hrec] at h; simp at h
      | some pr =>
        obtain ⟨r2, tl'⟩ := pr
        rw [hrec] at h
        simp only [Option.some.injEq, Prod.mk.injEq] at h
        rw [← h.2]
        simp [ih (by rw [hrec, h.1])]

theorem updateFirst_mem {p : Doc → Bool} {f : Doc → Doc} {l l' : List Doc} {r : Doc}
    (h : updateFirst p f l = some (r, l')) : r ∈ l' := by
  induction l generalizing l' with
  | nil => simp [updateFirst] at h
  | cons hd tl ih =>
    cases hp : p hd with
    | true =>
      rw [updateFirst_cons_pos hp] at h
      simp only [Option.some.injEq, Prod.mk.injEq] at h
      rw [← h.2, ← h.1]
      exact List.mem_cons_self _ _
    | false =>
      rw [updateFirst_cons_neg hp] at h
      cases hrec : updateFirst p f tl with
      | none => rw [hrec] at h; simp at h
      | some pr =>
        obtain ⟨r2, tl'⟩ := pr
        rw [hrec] at h
        simp only [Option.some.injEq, Prod.mk.injEq] at h
        rw [← h.2]
        have hmem := ih (show updateFirst p f tl = some (r, tl') by rw [hrec, h.1])
        exact List.mem_cons_of_mem _ hmem

theorem deleteFirst_cons_pos {p : Doc → Bool} {d : Doc} {ds : List Doc}
    (hp : p d = true) : deleteFirst p (d :: ds) = some ds := by
  simp [deleteFirst, hp]

theorem deleteFirst_cons_neg {p : Doc → Bool} {d : Doc} {ds : List Doc}
    (hp : p d = false) :
    deleteFirst p (d :: ds) = (deleteFirst p ds).map (fun ds' => d :: ds') := by
  simp [deleteFirst, hp]

theorem deleteFirst_eq_none {p : Doc → Bool} {l : List Doc}
    (h : ∀ d ∈ l, p d = false) : deleteFirst p l = none := by
  induction l with
  | nil => rfl
  | cons hd tl ih =>
    rw [deleteFirst_cons_neg (h hd (List.mem_cons_self hd tl)),
      ih (fun d hd2 => h d (List.mem_cons_of_mem _ hd2))]
    rfl

theorem deleteFirst_sublist {p : Doc → Bool} {l l' : List Doc}
    (h : deleteFirst p l = some l') : l'.Sublist l := by
  induction l generalizing l' with
  | nil => simp [deleteFirst] at h
  | cons hd tl ih =>
    cases hp : p hd with
    | true =>
      rw [deleteFirst_cons_pos hp] at h
      simp only [Option.some.injEq] at h
      rw [← h]
      exact List.sublist_cons_self hd tl
    | false =>
      rw [deleteFirst_cons_neg hp] at h
      cases hrec : deleteFirst p tl with
      | none => rw [hrec] at h; simp at h
      | some tl' =>
        rw [hrec] at h
        simp only [Option.map, Option.some.injEq] at h
        rw [← h]
        exact List.Sublist.cons₂ hd (ih hrec)

theorem renderAll_mem {l out : List Doc} (h : renderAll l = some out) :
    ∀ r ∈ out, ∃ d ∈ l, renderDoc d = some r := by
  induction l generalizing out with
  | nil =>
    simp only [renderAll, Option.some.injEq] at h
    intro r hr
    rw [← h] at hr
    simp at hr
  | cons hd tl ih =>
    simp only [renderAll] at h
    cases h1 : renderDoc hd with
    | none => rw [h1] at h; simp at h
    | some r1 =>
      rw [h1] at h
      cases h2 : renderAll tl with
      | none => rw [h2] at h; simp at h
      | some rs =>
        rw [h2] at h
        simp only [Option.some.injEq] at h
        intro r hr
        rw [← h] at hr
        rcases List.mem_cons.mp hr with hr | hr
        · exact ⟨hd, List.mem_cons_self _ _, by rw [h1, hr]⟩
        · obtain ⟨d, hdmem, hdr⟩ := ih h2 r hr
          exact ⟨d, List.mem_cons_of_mem _ hdmem, hdr⟩

/- ### Lemmas on output normalization -/

theorem getKey_renderTimeField_ne (d : Doc) (k k' : String) (h : k' ≠ k) :
    getKey (renderTimeField d k) k' = getKey d k' := by
  unfold renderTimeField
  cases hg : getKey d k with
  | none => rfl
  | some v =>
    cases v
    case vDT t => exact getKey_setKey_ne d k k' _ h
    all_goals rfl

theorem getKey_renderTimeField_self (d : Doc) (k : String) :
    getKey (renderTimeField d k) k =
      match getKey d k with
      | some (BVal.vDT t) => some (BVal.vStr (isoformat t))
      | o => o := by
  unfold renderTimeField
  cases hg : getKey d k with
  | none => simp [hg]
  | some v =>
    cases v <;> simp [hg, getKey_setKey_self]

theorem renderDoc_spec (d : Doc) (n : Nat) (hnd : (keys d).Nodup)
    (h : getKey d "_id" = some (BVal.vOid n)) :
    ∃ r, renderDoc d = some r ∧
      getKey r "id" = some (BVal.vStr (objectIdStr n)) ∧
      hasKey r "_id" = false ∧
      (∀ t, getKey d "created_at" = some (BVal.vDT t) →
        getKey r "created_at" = some (BVal.vStr (isoformat t))) ∧
      (∀ t, getKey d "updated_at" = some (BVal.vDT t) →
        getKey r "updated_at" = some (BVal.vStr (isoformat t))) ∧
      (∀ t, getKey d "due_date" = some (BVal.vDT t) →
        getKey r "due_date" = some (BVal.vStr (isoformat t))) := by
  have hpop : popKey d "_id" = some (BVal.vOid n, eraseKey d "_id") := by
    rw [popKey_eq, h]
  have hrd : renderDoc d =
      some (renderTimeField (renderTimeField (renderTimeField
        (setKey (eraseKey d "_id") "id" (BVal.vStr (objectIdStr n)))
        "created_at") "updated_at") "due_date") := by
    unfold renderDoc
    rw [hpop]
    rfl
  set d1 := setKey (eraseKey d "_id") "id" (BVal.vStr (objectIdStr n)) with hd1
  refine ⟨_, hrd, ?_, ?_, ?_, ?_, ?_⟩
  · rw [getKey_renderTimeField_ne _ _ _ (by decide),
      getKey_renderTimeField_ne _ _ _ (by decide),
      getKey_renderTimeField_ne _ _ _ (by decide), hd1, getKey_setKey_self]
  · have h1 : getKey d1 "_id" = none := by
      rw [hd1, getKey_setKey_ne _ _ _ _ (by decide)]
      exact getKey_eraseKey_self d "_id" hnd
    unfold hasKey
    rw [getKey_renderTimeField_ne _ _ _ (by decide),
      getKey_renderTimeField_ne _ _ _ (by decide),
      getKey_renderTimeField_ne _ _ _ (by decide), h1]
    rfl
  · intro t ht
    have h1 : getKey d1 "created_at" = some (BVal.vDT t) := by
      rw [hd1, getKey_setKey_ne _ _ _ _ (by decide),
        getKey_eraseKey_ne _ _ _ (by decide), ht]
    rw [getKey_renderTimeField_ne _ _ _ (by decide),
      getKey_renderTimeField_ne _ _ _ (by decide),
      getKey_renderTimeField_self, h1]
  · intro t ht
    have h1 : getKey (renderTimeField d1 "created_at") "updated_at" =
        some (BVal.vDT t) := by
      rw [getKey_renderTimeField_ne _ _ _ (by decide), hd1,
        getKey_setKey_ne _ _ _ _ (by decide),
        getKey_eraseKey_ne _ _ _ (by decide), ht]
    rw [getKey_renderTimeField_ne _ _ _ (by decide),
      getKey_renderTimeField_self, h1]
  · intro t ht
    have h1 : getKey (renderTimeField (renderTimeField d1 "created_at")
        "updated_at") "due_date" = some (BVal.vDT t) := by
      rw [getKey_renderTimeField_ne _ _ _ (by decide),
        getKey_renderTimeField_ne _ _ _ (by decide), hd1,
        getKey_setKey_ne _ _ _ _ (by decide),
        getKey_eraseKey_ne _ _ _ (by decide), ht]
    rw [getKey_renderTimeField_self, h1]

/- ### Literal patterns match exactly as substrings -/

theorem parsePat_literal (l : List Char) (h : ∀ c ∈ l, isMetaChar c = false) :
    parsePat l = l.map RTok.lit := by
  induction l with
  | nil => rfl
  | cons c rest ih =>
    have hc := h c (List.mem_cons_self c rest)
    have h1 : c ≠ '\\' := by
      intro hcc
      rw [hcc] at hc
      simp [isMetaChar, regexMeta] at hc
    have h2 : c ≠ '.' := by
      intro hcc
      rw [hcc] at hc
      simp [isMetaChar, regexMeta] at hc
    have hstep : parsePat (c :: rest) = RTok.lit c :: parsePat rest := by
      conv_lhs => unfold parsePat
      rw [if_neg h1, if_neg h2]
    rw [hstep, ih (fun x hx => h x (List.mem_cons_of_mem _ hx))]
    rfl

theorem matchHere_lit (q s : List Char) :
    matchHere (q.map RTok.lit) s = prefixCI q s := by
  induction q generalizing s with
  | nil => cases s <;> rfl
  | cons a as ih =>
    cases s with
    | nil => rfl
    | cons b bs => simp [matchHere, prefixCI, ih]

theorem matchSearch_lit (q s : List Char) :
    matchSearch (q.map RTok.lit) s = containsSub q s := by
  induction s with
  | nil => simp [matchSearch, containsSub, matchHere_lit]
  | cons x xs ih => simp [matchSearch, containsSub, matchHere_lit, ih]

theorem regexSearchCI_literal (pat s : String) (h : litPattern pat = true) :
    regexSearchCI pat s = ciContains s pat := by
  unfold regexSearchCI ciContains
  rw [parsePat_literal pat.data ?_, matchSearch_lit]
  intro c hc
  have := (List.all_eq_true.mp h) c hc
  simpa using this

theorem fieldRegexCI_literal (d : Doc) (k : String) (pat : String)
    (h : litPattern pat = true) :
    fieldRegexCI d k pat = fieldSubstr d k pat := by
  unfold fieldRegexCI fieldSubstr
  cases getKey d k with
  | none => rfl
  | some v =>
    cases v
    case vStr s => exact regexSearchCI_literal pat s h
    all_goals rfl

/- ### Concrete fixtures used by the witnesses -/

/-- A well-formed path identifier (24 hexadecimal characters). -/
def exTid : String := "0123456789abcdef01234567"

/-- The numeric value of `exTid` as a store identifier. -/
def exOid : Nat := 0x0123456789abcdef01234567

/-- A well-formed stored task document. -/
def exDoc : Doc :=
  [("_id", BVal.vOid exOid), ("title", BVal.vStr "Buy food"),
   ("description", BVal.vStr "from the store"), ("completed", BVal.vBool false),
   ("created_at", BVal.vDT 3), ("updated_at", BVal.vDT 3)]

/-- An update body supplying only `completed`. -/
def exPayload : TaskUpdate := ⟨none, none, none, none, none, some true⟩

/-- An update body supplying nothing (every field omitted or null). -/
def emptyPayload : TaskUpdate := ⟨none, none, none, none, none, none⟩

/-- A stored document whose title the pattern `a.c` matches even though
it does not contain `a.c` as a substring. -/
def cexDoc : Doc :=
  [("_id", BVal.vOid 1), ("title", BVal.vStr "abc"), ("description", BVal.vStr "notes")]

/- ### The claims -/

/-- C3: updating a well-formed identifier that matches no stored
document returns a 404 not-found error, and deleting such an identifier
(deleted count zero, including an already-deleted one) returns a 404
not-found error, with the store unchanged in both cases. -/
theorem update_delete_missing_404 (tid : String) (oid : Nat) (p : TaskUpdate)
    (now : Nat) (st : List Doc)
    (hid : parseObjectId tid = some oid)
    (hmiss : ∀ d ∈ st, matchById oid d = false) :
    update_task true tid p now st = (Except.error ⟨404, "Task not found"⟩, st) ∧
    delete_task true tid st = (Except.error ⟨404, "Task not found"⟩, st) := by
  constructor
  · simp [update_task, hid, updateFirst_eq_none hmiss]
  · simp [delete_task, hid, deleteFirst_eq_none hmiss]

/-- C3 witness: a concrete store containing only a document with a
different identifier. -/
theorem update_delete_missing_404_w :
    update_task true exTid exPayload 7 [cexDoc] =
      (Except.error ⟨404, "Task not found"⟩, [cexDoc]) ∧
    delete_task true exTid [cexDoc] =
      (Except.error ⟨404, "Task not found"⟩, [cexDoc]) :=
  update_delete_missing_404 exTid exOid exPayload 7 [cexDoc] (by decide)
    (by intro d hd; rw [List.mem_singleton] at hd; rw [hd]; decide)

/-- C4: a create request appends exactly one new document, whose
`completed` field is false (the request body type has no `completed`
field at all) and whose `_id` is the store-assigned identifier; the
response is that identifier's string form, and a store error surfaces as
a 500 with the exception text and leaves the store unchanged. -/
theorem create_inserts_one_completed_false (p : TaskCreate) (now oid : Nat)
    (e : String) (st : List Doc) :
    create_task p now (Except.ok oid) st =
      (Except.ok (objectIdStr oid), st ++ [insertedDoc p now oid]) ∧
    getKey (insertedDoc p now oid) "completed" = some (BVal.vBool false) ∧
    getKey (insertedDoc p now oid) "_id" = some (BVal.vOid oid) ∧
    create_task p now (Except.error e) st = (Except.error ⟨500, e⟩, st) := by
  refine ⟨rfl, ?_, rfl, rfl⟩
  simp [insertedDoc, taskDoc, getKey]

/-- C5: a path identifier that does not parse as a store identifier
makes update and delete fail with a 500 carrying the exception text (not
a 404), the same status as the store-unavailable failure. -/
theorem malformed_identifier_500 (tid : String) (p : TaskUpdate) (now : Nat)
    (st : List Doc) (hbad : parseObjectId tid = none) :
    update_task true tid p now st = (Except.error ⟨500, invalidIdMsg tid⟩, st) ∧
    delete_task true tid st = (Except.error ⟨500, invalidIdMsg tid⟩, st) ∧
    update_task false tid p now st =
      (Except.error ⟨500, "Database not available"⟩, st) ∧
    delete_task false tid st = (Except.error ⟨500, "Database not available"⟩, st) ∧
    (HErr.mk 500 (invalidIdMsg tid)).status =
      (HErr.mk 500 "Database not available").status := by
  refine ⟨?_, ?_, rfl, rfl, rfl⟩
  · simp [update_task, hbad]
  · simp [delete_task, hbad]

/-- C5 witness: a concrete malformed identifier. -/
theorem malformed_identifier_500_w :
    update_task true "not-hex" emptyPayload 7 [] =
      (Except.error ⟨500, invalidIdMsg "not-hex"⟩, []) ∧
    delete_task true "not-hex" [] =
      (Except.error ⟨500, invalidIdMsg "not-hex"⟩, []) :=
  ⟨(malformed_identifier_500 "not-hex" emptyPayload 7 [] (by decide)).1,
   (malformed_identifier_500 "not-hex" emptyPayload 7 [] (by decide)).2.1⟩

/-- C6: the diagnostics endpoint is a total function that always
responds with status 200; its collection list never exceeds ten entries,
and on an enumeration failure its database field carries the exception
text truncated to at most fifty characters. -/
theorem test_database_total_bounded (db : Option DBHandle) (u n : Bool) :
    (test_endpoint db u n).1 = 200 ∧
    (test_endpoint db u n).2.collections.length ≤ 10 ∧
    (∀ h e, db = some h → h.collectionsResult = Except.error e →
      (test_endpoint db u n).2.database = "⚠️  Connected but Error: " ++ trunc50 e ∧
        (trunc50 e).length ≤ 50) := by
  refine ⟨rfl, ?_, ?_⟩
  · cases db with
    | none => simp [test_endpoint, test_database]
    | some h =>
      cases hc : h.collectionsResult with
      | ok cs =>
        simp only [test_endpoint, test_database, hc]
        simp [List.length_take]
      | error e => simp [test_endpoint, test_database, hc]
  · intro h e hdb hcr
    subst hdb
    refine ⟨by simp [test_endpoint, test_database, hcr], ?_⟩
    simp only [trunc50, String.length]
    simp [List.length_take]

/-- C6 witness: a handle whose collection enumeration fails with a long
message. -/
theorem test_database_total_bounded_w :
    (test_endpoint (some ⟨"appdb", Except.error "boom"⟩) true false).2.database =
      "⚠️  Connected but Error: " ++ trunc50 "boom" ∧ (trunc50 "boom").length ≤ 50 :=
  (test_database_total_bounded (some ⟨"appdb", Except.error "boom"⟩) true false).2.2
    ⟨"appdb", Except.error "boom"⟩ "boom" rfl rfl

/-- C10: an empty-string `category` or `q` parameter is treated exactly
as an absent one — the corresponding clause is not added, so the result
equals the unfiltered (or less filtered) request rather than selecting
documents whose field is the empty string; with neither clause, every
document matches. -/
theorem empty_string_params_ignored :
    (∀ (q : Option String) (st : List Doc),
      list_tasks (some "") q st = list_tasks none q st) ∧
    (∀ (c : Option String) (st : List Doc),
      list_tasks c (some "") st = list_tasks c none st) ∧
    (∀ d : Doc, matchesFilter (buildFilter none none) d = true) := by
  refine ⟨fun q st => ?_, fun c st => ?_, fun d => ?_⟩ <;>
    simp [list_tasks, buildFilter, truthy, matchesFilter]

/-- C8: identifiers are immutable — the update's `$set` document never
contains an `_id` key, update preserves every stored document's `_id`
(in place), create only appends to the existing store, and delete only
removes documents (the new store is a sublist of the old one). -/
theorem identifier_immutable :
    (∀ (p : TaskUpdate) (now : Nat), "_id" ∉ (updateData p now).map Prod.fst) ∧
    (∀ (dbOk : Bool) (tid : String) (p : TaskUpdate) (now : Nat) (st : List Doc),
      ((update_task dbOk tid p now st).2).map (fun d => getKey d "_id") =
        st.map (fun d => getKey d "_id")) ∧
    (∀ (p : TaskCreate) (now : Nat) (ins : Except String Nat) (st : List Doc),
      ∃ tail, (create_task p now ins st).2 = st ++ tail) ∧
    (∀ (dbOk : Bool) (tid : String) (st : List Doc),
      ((delete_task dbOk tid st).2).Sublist st) := by
  have hnoid : ∀ (p : TaskUpdate) (now : Nat),
      "_id" ∉ (updateData p now).map Prod.fst := by
    intro p now hmem
    rcases keys_updateData_sub p now "_id" hmem with h | h
    · simp [updFieldNames] at h
    · simp at h
  refine ⟨hnoid, ?_, ?_, ?_⟩
  · intro dbOk tid p now st
    cases dbOk with
    | false => rfl
    | true =>
      cases hid : parseObjectId tid with
      | none => simp [update_task, hid]
      | some oid =>
        cases hrec : updateFirst (matchById oid)
            (fun d => applySet d (updateData p now)) st with
        | none => simp [update_task, hid, hrec]
        | some pr =>
          obtain ⟨r, st'⟩ := pr
          have hst : (update_task true tid p now st).2 = st' := by
            simp [update_task, hid, hrec]
          rw [hst]
          exact updateFirst_map _ (fun d =>
            getKey_applySet_notMem d _ _ (hnoid p now)) hrec
  · intro p now ins st
    cases ins with
    | ok oid => exact ⟨[insertedDoc p now oid], rfl⟩
    | error e => exact ⟨[], by simp [create_task]⟩
  · intro dbOk tid st
    cases dbOk with
    | false => exact List.Sublist.refl st
    | true =>
      cases hid : parseObjectId tid with
      | none => simp [delete_task, hid]
      | some oid =>
        cases hrec : deleteFirst (matchById oid) st with
        | none => simp [delete_task, hid, hrec]
        | some st' =>
          have hst : (delete_task true tid st).2 = st' := by
            simp [delete_task, hid, hrec]
          rw [hst]
          exact deleteFirst_sublist hrec

/-- C8 witness: a concrete update on a one-document store keeps the
stored identifier. -/
theorem identifier_immutable_w :
    ((update_task true exTid exPayload 7 [exDoc]).2).map
        (fun d => getKey d "_id") =
      [exDoc].map (fun d => getKey d "_id") :=
  identifier_immutable.2.1 true exTid exPayload 7 [exDoc]

/-- C9: a field supplied as null is indistinguishable from an omitted
one — the `$set` document never carries a null value, and a field whose
request value is `none` keeps its stored value. -/
theorem update_nulls_stripped :
    (∀ (p : TaskUpdate) (now : Nat) (k : String) (v : BVal),
      (k, v) ∈ updateData p now → v ≠ BVal.vNull) ∧
    (∀ (p : TaskUpdate) (now : Nat) (d : Doc), p.title = none →
      getKey (applySet d (updateData p now)) "title" = getKey d "title") ∧
    (∀ (p : TaskUpdate) (now : Nat) (d : Doc), p.description = none →
      getKey (applySet d (updateData p now)) "description" =
        getKey d "description") ∧
    (∀ (p : TaskUpdate) (now : Nat) (d : Doc), p.category = none →
      getKey (applySet d (updateData p now)) "category" = getKey d "category") ∧
    (∀ (p : TaskUpdate) (now : Nat) (d : Doc), p.due_date = none →
      getKey (applySet d (updateData p now)) "due_date" = getKey d "due_date") ∧
    (∀ (p : TaskUpdate) (now : Nat) (d : Doc), p.priority = none →
      getKey (applySet d (updateData p now)) "priority" = getKey d "priority") ∧
    (∀ (p : TaskUpdate) (now : Nat) (d : Doc), p.completed = none →
      getKey (applySet d (updateData p now)) "completed" =
        getKey d "completed") := by
  refine ⟨?_, ?_, ?_, ?_, ?_, ?_, ?_⟩
  · intro p now k v hmem heq
    subst heq
    rw [updateData_eq] at hmem
    simp [dumpUpdate] at hmem
  · intro p now d h
    rw [getKey_upd_title, h]
  · intro p now d h
    rw [getKey_upd_description, h]
  · intro p now d h
    rw [getKey_upd_category, h]
  · intro p now d h
    rw [getKey_upd_due_date, h]
  · intro p now d h
    rw [getKey_upd_priority, h]
  · intro p now d h
    rw [getKey_upd_completed, h]

/-- C9 witness: an update body with every field omitted leaves the
stored title unchanged. -/
theorem update_nulls_stripped_w :
    getKey (applySet exDoc (updateData emptyPayload 7)) "title" =
      getKey exDoc "title" :=
  update_nulls_stripped.2.1 emptyPayload 7 exDoc rfl

/-- C2: on an existing task, update rewrites exactly the supplied
(non-null) fields, stamps `updated_at` with the current server time,
keeps every other key of the matched document and every other document
unchanged, and returns the normalized post-update document. -/
theorem update_applies_exactly_supplied (tid : String) (oid : Nat)
    (p : TaskUpdate) (now : Nat) (pre post : List Doc) (d : Doc)
    (hid : parseObjectId tid = some oid)
    (hpre : ∀ x ∈ pre, matchById oid x = false)
    (hd : matchById oid d = true) :
    update_task true tid p now (pre ++ d :: post) =
      (updResponse (applySet d (updateData p now)),
        pre ++ applySet d (updateData p now) :: post) ∧
    getKey (applySet d (updateData p now)) "updated_at" =
      some (BVal.vDT now) ∧
    getKey (applySet d (updateData p now)) "title" =
      (match p.title with
       | some v => some (BVal.vStr v)
       | none => getKey d "title") ∧
    getKey (applySet d (updateData p now)) "description" =
      (match p.description with
       | some v => some (BVal.vStr v)
       | none => getKey d "description") ∧
    getKey (applySet d (updateData p now)) "category" =
      (match p.category with
       | some v => some (BVal.vStr v)
       | none => getKey d "category") ∧
    getKey (applySet d (updateData p now)) "due_date" =
      (match p.due_date with
       | some v => some (BVal.vDT v)
       | none => getKey d "due_date") ∧
    getKey (applySet d (updateData p now)) "priority" =
      (match p.priority with
       | some v => some (BVal.vStr v)
       | none => getKey d "priority") ∧
    getKey (applySet d (updateData p now)) "completed" =
      (match p.completed with
       | some v => some (BVal.vBool v)
       | none => getKey d "completed") ∧
    (∀ k, k ∉ updFieldNames → k ≠ "updated_at" →
      getKey (applySet d (updateData p now)) k = getKey d k) := by
  refine ⟨?_, getKey_upd_updated_at p now d, getKey_upd_title p now d,
    getKey_upd_description p now d, getKey_upd_category p now d,
    getKey_upd_due_date p now d, getKey_upd_priority p now d,
    getKey_upd_completed p now d, fun k h1 h2 => getKey_upd_other p now d k h1 h2⟩
  simp [update_task, hid, updateFirst_split _ _ pre post d hpre hd]

/-- C2 witness: updating only `completed` on a concrete one-document
store. -/
theorem update_applies_exactly_supplied_w :
    update_task true exTid exPayload 7 ([] ++ exDoc :: []) =
      (updResponse (applySet exDoc (updateData exPayload 7)),
        [] ++ applySet exDoc (updateData exPayload 7) :: []) ∧
    getKey (applySet exDoc (updateData exPayload 7)) "updated_at" =
      some (BVal.vDT 7) :=
  ⟨(update_applies_exactly_supplied exTid exOid exPayload 7 [] [] exDoc
      (by decide) (by intro x hx; cases hx) (by decide)).1,
   (update_applies_exactly_supplied exTid exOid exPayload 7 [] [] exDoc
      (by decide) (by intro x hx; cases hx) (by decide)).2.1⟩

/-- C7: every document produced by the list operation and by a
successful update is drawn from the store and normalized by `renderDoc`;
normalization turns the `_id` into its string form under `id`, removes
the raw `_id`, and renders each of `created_at`, `updated_at` and
`due_date` as ISO-8601 text whenever the stored value is a timestamp. -/
theorem rendered_documents_normalized :
    (∀ (d : Doc) (n : Nat), (keys d).Nodup →
      getKey d "_id" = some (BVal.vOid n) →
      ∃ r, renderDoc d = some r ∧
        getKey r "id" = some (BVal.vStr (objectIdStr n)) ∧
        hasKey r "_id" = false ∧
        (∀ t, getKey d "created_at" = some (BVal.vDT t) →
          getKey r "created_at" = some (BVal.vStr (isoformat t))) ∧
        (∀ t, getKey d "updated_at" = some (BVal.vDT t) →
          getKey r "updated_at" = some (BVal.vStr (isoformat t))) ∧
        (∀ t, getKey d "due_date" = some (BVal.vDT t) →
          getKey r "due_date" = some (BVal.vStr (isoformat t)))) ∧
    (∀ (c q : Option String) (st out : List Doc),
      list_tasks c q st = Except.ok out →
      ∀ r ∈ out, ∃ d, d ∈ st ∧ renderDoc d = some r) ∧
    (∀ (tid : String) (p : TaskUpdate) (now : Nat) (st st2 : List Doc)
      (out : Doc), update_task true tid p now st = (Except.ok out, st2) →
      ∃ d, d ∈ st2 ∧ renderDoc d = some out) := by
  refine ⟨renderDoc_spec, ?_, ?_⟩
  · intro c q st out hok r hr
    unfold list_tasks listResult at hok
    cases hra : renderAll (st.filter (matchesFilter (buildFilter c q))) with
    | none => rw [hra] at hok; simp at hok
    | some out' =>
      rw [hra] at hok
      simp only [Except.ok.injEq] at hok
      subst hok
      obtain ⟨d, hdmem, hdr⟩ := renderAll_mem hra r hr
      exact ⟨d, List.mem_of_mem_filter hdmem, hdr⟩
  · intro tid p now st st2 out h
    cases hid : parseObjectId tid with
    | none => simp [update_task, hid] at h
    | some oid =>
      cases hrec : updateFirst (matchById oid)
          (fun d => applySet d (updateData p now)) st with
      | none => simp [update_task, hid, hrec] at h
      | some pr =>
        obtain ⟨r, st'⟩ := pr
        have h2 : updResponse r = Except.ok out ∧ st' = st2 := by
          have := h
          simp only [update_task, hid, hrec, if_true] at this
          exact ⟨congrArg Prod.fst this, congrArg Prod.snd this⟩
        unfold updResponse at h2
        cases hrd : renderDoc r with
        | none => rw [hrd] at h2; simp at h2
        | some out' =>
          have hout : out' = out := by
            have := h2.1
            rw [hrd] at this
            simpa using this
          refine ⟨r, ?_, by rw [hrd, hout]⟩
          rw [← h2.2]
          exact updateFirst_mem hrec

/-- C7 witness: a concrete well-formed document renders successfully. -/
theorem rendered_documents_normalized_w : (renderDoc exDoc).isSome = true := by
  obtain ⟨r, hr, -⟩ := rendered_documents_normalized.1 exDoc exOid
    (by decide) (by decide)
  rw [hr]
  rfl

/-- C1 counterexample: with `q = "a.c"` the document titled `"abc"` is
returned by the list operation although neither its title nor its
description contains `"a.c"` as a case-insensitive substring — the raw
pattern is matched as a regex, where `.` is a wildcard. -/
theorem query_regex_not_substring_cex :
    list_tasks none (some "a.c") [cexDoc] =
      Except.ok [[("title", BVal.vStr "abc"), ("description", BVal.vStr "notes"),
        ("id", BVal.vStr (objectIdStr 1))]] ∧
    ciContains "abc" "a.c" = false ∧
    ciContains "notes" "a.c" = false := by
  refine ⟨by decide, by decide, by decide⟩

/-- C1 (amended): when the query contains no regex metacharacter, a
stored document satisfies the free-text clause exactly when its title or
its description contains `q` as a case-insensitive substring, and for a
non-empty `q` the list operation returns precisely the documents
selected by that clause (normalized); in general `q` is interpreted as a
raw case-insensitive regex pattern, not a substring. -/
theorem query_literal_substring_match (q : String) (d : Doc)
    (hlit : litPattern q = true) :
    qMatches q d = (fieldSubstr d "title" q || fieldSubstr d "description" q) ∧
    (q ≠ "" → ∀ st : List Doc,
      list_tasks none (some q) st = listResult (st.filter (qMatches q))) := by
  constructor
  · unfold qMatches
    rw [fieldRegexCI_literal _ _ _ hlit, fieldRegexCI_literal _ _ _ hlit]
  · intro hne st
    unfold list_tasks
    have hb : buildFilter none (some q) = ⟨none, some q⟩ := by
      simp [buildFilter, truthy, hne]
    rw [hb]
    have hp : matchesFilter ⟨none, some q⟩ = qMatches q := by
      funext dd
      simp [matchesFilter]
    rw [hp]

/-- C1 witness: the literal query `"foo"` selects the concrete document
by substring match on its case-insensitively matching title. -/
theorem query_literal_substring_match_w :
    qMatches "foo" exDoc =
      (fieldSubstr exDoc "title" "foo" || fieldSubstr exDoc "description" "foo") ∧
    list_tasks none (some "foo") [exDoc] =
      listResult ([exDoc].filter (qMatches "foo")) :=
  ⟨(query_literal_substring_match "foo" exDoc (by decide)).1,
   (query_literal_substring_match "foo" exDoc (by decide)).2 (by decide) [exDoc]⟩

end Todo
